import Mathlib

/-!
Shallow embedding of the real-time collaborative drawing canvas server core
(`server/drawing-state.js`, `server/room.js`, `server/server.js`).

JavaScript values are modelled as follows: operation ids (uuids) are `Nat`
supplied explicitly at each call (the source draws them from `uuid()`);
timestamps (`Date.now()`) are `Int` supplied explicitly; JS `Map`s are
insertion-ordered association lists (`set` keeps the position of an existing
key and appends a fresh key; `delete` removes); the stable JS
`Array.prototype.sort` with comparator `a.timestamp - b.timestamp` is an
insertion sort that is stable for equal timestamps.
-/

/-- A committed operation in a room's append-only log (`drawing-state.js`).
`inverseOf`/`redoOf`/`data` model fields that may be absent on a JS object. -/
structure Operation where
  id : Nat
  userId : String
  roomId : String
  type : String
  timestamp : Int
  inverseOf : Option Nat := none
  redoOf : Option Nat := none
  data : Option Nat := none
deriving DecidableEq, Repr

/-- The client-supplied `op` object spread into a committed operation by
`addOperation` (`{ id: uuid(), ..., ...op }`): every field the client sends
overrides the server-assigned one, `none` meaning the field is absent. -/
structure Payload where
  id : Option Nat := none
  type : Option String := none
  timestamp : Option Int := none
  userId : Option String := none
  roomId : Option String := none
  inverseOf : Option Nat := none
  redoOf : Option Nat := none
  data : Option Nat := none
deriving DecidableEq, Repr

/-- The per-room drawing state: an append-only list of operations. -/
structure DrawingState where
  roomId : String
  operations : List Operation := []
deriving DecidableEq, Repr

/-- `DrawingState.addOperation(op, userId)`: builds
`{ id: uuid(), userId, roomId, type: "stroke", timestamp: Date.now(), ...op }`
(the spread comes last, so client fields override the defaults) and appends it. -/
def DrawingState.addOperation (s : DrawingState) (op : Payload) (userId : String)
    (newId : Nat) (now : Int) : DrawingState × Operation :=
  let operation : Operation :=
    { id := op.id.getD newId
      userId := op.userId.getD userId
      roomId := op.roomId.getD s.roomId
      type := op.type.getD "stroke"
      timestamp := op.timestamp.getD now
      inverseOf := op.inverseOf
      redoOf := op.redoOf
      data := op.data }
  ({ s with operations := s.operations ++ [operation] }, operation)

/-- `DrawingState.undoOwn(userId)`: scan the log backwards for the last
operation with `type === "stroke"` and `userId === userId`; if found, append
an `undo` operation with `inverseOf` pointing at it and return it, else
return `null` and leave the log unchanged. -/
def DrawingState.undoOwn (s : DrawingState) (userId : String)
    (newId : Nat) (now : Int) : DrawingState × Option Operation :=
  match s.operations.reverse.find? (fun op => op.type == "stroke" && op.userId == userId) with
  | none => (s, none)
  | some target =>
    let inverse : Operation :=
      { id := newId, userId := userId, roomId := s.roomId, type := "undo"
        timestamp := now, inverseOf := some target.id }
    ({ s with operations := s.operations ++ [inverse] }, some inverse)

/-- `DrawingState.redoOwn(userId)`: scan the log backwards for the last
operation with `type === "undo"` and `userId === userId`; if found, append a
`redo` operation with `redoOf := thatUndo.inverseOf` and return it, else
return `null`. -/
def DrawingState.redoOwn (s : DrawingState) (userId : String)
    (newId : Nat) (now : Int) : DrawingState × Option Operation :=
  match s.operations.reverse.find? (fun op => op.type == "undo" && op.userId == userId) with
  | none => (s, none)
  | some lastUndo =>
    let redoOp : Operation :=
      { id := newId, userId := userId, roomId := s.roomId, type := "redo"
        timestamp := now, redoOf := lastUndo.inverseOf }
    ({ s with operations := s.operations ++ [redoOp] }, some redoOp)

/-- JS `Map.prototype.set` on an insertion-ordered association list: an
existing key keeps its position and gets the new value, a fresh key is
appended at the end. -/
def jsMapSet {α β : Type} [BEq α] (m : List (α × β)) (k : α) (v : β) : List (α × β) :=
  if m.any (fun p => p.1 == k) then m.map (fun p => if p.1 == k then (k, v) else p)
  else m ++ [(k, v)]

/-- JS `Map.prototype.delete`: remove the entry with the given key. -/
def jsMapDelete {α β : Type} [BEq α] (m : List (α × β)) (k : α) : List (α × β) :=
  m.filter (fun p => !(p.1 == k))

/-- JS `Map.prototype.get`: the value stored at a key, if any. -/
def jsMapGet {α β : Type} [BEq α] (m : List (α × β)) (k : α) : Option β :=
  (m.find? (fun p => p.1 == k)).map (fun p => p.2)

/-- Stable insertion of an operation after every element whose timestamp is
`≤` its own: folding this over a list reproduces the output of the stable JS
sort with comparator `a.timestamp - b.timestamp`. -/
def insertByTimestamp (a : Operation) : List Operation → List Operation
  | [] => [a]
  | b :: l => if b.timestamp ≤ a.timestamp then b :: insertByTimestamp a l else a :: b :: l

/-- Stable sort by ascending `timestamp`, modelling
`[...active.values()].sort((a, b) => a.timestamp - b.timestamp)`. -/
def sortByTimestamp (l : List Operation) : List Operation :=
  l.foldl (fun acc a => insertByTimestamp a acc) []

/-- The first `if` of the `getActiveOperations` loop body:
`if (op.type === "stroke") active.set(op.id, op)`. -/
def strokeStep (m : List (Nat × Operation)) (op : Operation) : List (Nat × Operation) :=
  if op.type = "stroke" then jsMapSet m op.id op else m

/-- The second `if` of the `getActiveOperations` loop body:
`if (op.type === "undo") active.delete(op.inverseOf)` (a `delete` with an
absent `inverseOf` deletes the key `undefined`, a no-op). -/
def undoStep (m : List (Nat × Operation)) (op : Operation) : List (Nat × Operation) :=
  if op.type = "undo" then
    match op.inverseOf with
    | some t => jsMapDelete m t
    | none => m
  else m

/-- The third `if` of the `getActiveOperations` loop body: on `redo`, look
up the first operation of the whole log whose id is `op.redoOf`
(`this.operations.find(o => o.id === op.redoOf)`) and, if found, re-add it
under its id (an absent `redoOf` matches no operation). -/
def redoStep (ops : List Operation) (m : List (Nat × Operation)) (op : Operation) :
    List (Nat × Operation) :=
  if op.type = "redo" then
    match op.redoOf with
    | some t =>
      match ops.find? (fun o => o.id == t) with
      | some original => jsMapSet m original.id original
      | none => m
    | none => m
  else m

/-- One iteration of the `getActiveOperations` loop over the log: the three
sequential `if`s applied in order. -/
def activeStep (ops : List Operation) (m : List (Nat × Operation)) (op : Operation) :
    List (Nat × Operation) :=
  redoStep ops (undoStep (strokeStep m op) op) op

/-- `DrawingState.getActiveOperations()`: fold the log through `activeStep`
starting from an empty map, then sort the values by ascending timestamp. -/
def DrawingState.getActiveOperations (s : DrawingState) : List Operation :=
  sortByTimestamp ((s.operations.foldl (activeStep s.operations) []).map (fun p => p.2))

/-- Modelled from the spec: one step of the section 4.3 reconstruction
pseudocode. It differs from `activeStep` only on `Redo`: the spec re-adds
`originalStroke(op.target)` only "if op.target in original strokes", i.e. the
lookup is restricted to `Stroke` operations. -/
def specStep (ops : List Operation) (m : List (Nat × Operation)) (op : Operation) :
    List (Nat × Operation) :=
  if op.type = "stroke" then jsMapSet m op.id op
  else if op.type = "undo" then
    match op.inverseOf with
    | some t => jsMapDelete m t
    | none => m
  else if op.type = "redo" then
    match op.redoOf with
    | some t =>
      match ops.find? (fun o => o.type == "stroke" && o.id == t) with
      | some original => jsMapSet m t original
      | none => m
    | none => m
  else m

/-- Modelled from the spec: the section 4.3 reconstruction, i.e. the fold of
the log through `specStep` with the values sorted by ascending creation time. -/
def specActiveOps (s : DrawingState) : List Operation :=
  sortByTimestamp ((s.operations.foldl (specStep s.operations) []).map (fun p => p.2))

/-- Decidable side condition on a log: every `redo` whose target id resolves
to some operation of the log resolves to a `stroke` operation. This holds for
every log the server itself builds (its `undo` operations always point at
strokes), and fails only for logs containing client-injected `type` fields. -/
def redoTargetsStrokes (ops : List Operation) : Bool :=
  ops.all (fun op =>
    !(op.type == "redo") ||
      match op.redoOf with
      | some t =>
        match ops.find? (fun o => o.id == t) with
        | some orig => orig.type == "stroke"
        | none => true
      | none => true)

/-- JS `ToInt32`: reduce an integer modulo `2^32` into `[-2^31, 2^31)`. -/
def toInt32 (n : Int) : Int :=
  let m := n.emod 4294967296
  if m < 2147483648 then m else m - 4294967296

/-- One iteration of the `assignColor` hash loop:
`hash = socketId.charCodeAt(i) + ((hash << 5) - hash)`. The shift coerces
its operand to a 32-bit integer and wraps the result (`toInt32`), while the
subtraction and addition are exact. -/
def hashStep (h : Int) (c : Nat) : Int :=
  (c : Int) + (toInt32 (toInt32 h * 32) - h)

/-- The accumulated hash of a socket id (as its list of character codes). -/
def hashOf (codes : List Nat) : Int :=
  codes.foldl hashStep 0

/-- `hash & 0xffffff`: coerce to 32-bit and mask the low 24 bits, yielding a
natural number below `2^24` even when the 32-bit hash is negative. -/
def maskedHash (codes : List Nat) : Nat :=
  ((hashOf codes).emod 4294967296).toNat &&& 16777215

/-- An uppercase hexadecimal digit, as produced by
`toString(16).toUpperCase()`. -/
def hexDigit (n : Nat) : Char :=
  if n < 10 then Char.ofNat (48 + n) else Char.ofNat (55 + n)

/-- `n.toString(16).toUpperCase()`: hexadecimal digits without leading
zeros (`"0"` for zero). -/
def toHex (n : Nat) : List Char :=
  if n < 16 then [hexDigit n] else toHex (n / 16) ++ [hexDigit (n % 16)]
decreasing_by exact Nat.div_lt_self (by omega) (by omega)

/-- `RoomManager.assignColor(socketId)`: hash the socket id character by
character, mask to 24 bits, render in uppercase hexadecimal and left-pad with
zeros to six digits (`"000000".substring(0, 6 - c.length) + c`), prefixed by
`'#'`. Characters are taken as their Unicode code points (`charCodeAt`). -/
def assignColor (socketId : String) : List Char :=
  let c := toHex (maskedHash (socketId.data.map Char.toNat))
  '#' :: (List.replicate (6 - c.length) '0' ++ c)

/-- A participant as stored in a room's `users` map (`room.js`). -/
structure User where
  id : String
  username : String
  color : List Char
deriving DecidableEq, Repr

/-- A room: id, `users` map and its `DrawingState` (`room.js`). -/
structure Room where
  id : String
  users : List (String × User)
  drawingState : DrawingState
deriving DecidableEq, Repr

/-- The `RoomManager`: the `rooms` map from room ids to rooms (`room.js`). -/
structure RoomManager where
  rooms : List (String × Room)
deriving DecidableEq, Repr

/-- `RoomManager.getRoom(roomId)`: return the existing room, or create a
fresh one (empty users, empty log) on miss and return it. -/
def RoomManager.getRoom (m : RoomManager) (roomId : String) : RoomManager × Room :=
  match jsMapGet m.rooms roomId with
  | some room => (m, room)
  | none =>
    let room : Room :=
      { id := roomId, users := [], drawingState := { roomId := roomId, operations := [] } }
    ({ rooms := jsMapSet m.rooms roomId room }, room)

/-- `RoomManager.addUser(roomId, socketId, username)`: ensure the room
exists, store the user with the color assigned from the socket id, and
return the stored user. -/
def RoomManager.addUser (m : RoomManager) (roomId socketId username : String) :
    RoomManager × User :=
  let (m1, room) := m.getRoom roomId
  let user : User := { id := socketId, username := username, color := assignColor socketId }
  let room2 := { room with users := jsMapSet room.users socketId user }
  ({ rooms := jsMapSet m1.rooms roomId room2 }, user)

/-- `RoomManager.removeUser(roomId, socketId)`: ensure the room exists,
delete the user, and delete the whole room when no users remain. -/
def RoomManager.removeUser (m : RoomManager) (roomId socketId : String) : RoomManager :=
  let (m1, room) := m.getRoom roomId
  let room2 := { room with users := jsMapDelete room.users socketId }
  if room2.users.isEmpty then { rooms := jsMapDelete m1.rooms roomId }
  else { rooms := jsMapSet m1.rooms roomId room2 }

/-- `RoomManager.addOperation(roomId, operation, userId)`: ensure the room
exists (creating it on miss) and delegate to its drawing state. -/
def RoomManager.addOperation (m : RoomManager) (roomId : String) (op : Payload)
    (userId : String) (newId : Nat) (now : Int) : RoomManager × Operation :=
  let (m1, room) := m.getRoom roomId
  let (ds, committed) := room.drawingState.addOperation op userId newId now
  ({ rooms := jsMapSet m1.rooms roomId { room with drawingState := ds } }, committed)

/-- `RoomManager.undoOwn(roomId, userId)`: ensure the room exists and
delegate to its drawing state. -/
def RoomManager.undoOwn (m : RoomManager) (roomId userId : String)
    (newId : Nat) (now : Int) : RoomManager × Option Operation :=
  let (m1, room) := m.getRoom roomId
  let (ds, res) := room.drawingState.undoOwn userId newId now
  ({ rooms := jsMapSet m1.rooms roomId { room with drawingState := ds } }, res)

/-- `RoomManager.redoOwn(roomId, userId)`: ensure the room exists and
delegate to its drawing state. -/
def RoomManager.redoOwn (m : RoomManager) (roomId userId : String)
    (newId : Nat) (now : Int) : RoomManager × Option Operation :=
  let (m1, room) := m.getRoom roomId
  let (ds, res) := room.drawingState.redoOwn userId newId now
  ({ rooms := jsMapSet m1.rooms roomId { room with drawingState := ds } }, res)

/-- `RoomManager.getActiveOps(roomId)`: ensure the room exists and compute
the active operations of its drawing state. -/
def RoomManager.getActiveOps (m : RoomManager) (roomId : String) :
    RoomManager × List Operation :=
  let (m1, room) := m.getRoom roomId
  (m1, room.drawingState.getActiveOperations)

/-- One mutating call against a room's `DrawingState`, with the fresh uuid
and `Date.now()` value the source would draw recorded explicitly. -/
inductive Call where
  | commit (op : Payload) (userId : String) (newId : Nat) (now : Int)
  | undoCall (userId : String) (newId : Nat) (now : Int)
  | redoCall (userId : String) (newId : Nat) (now : Int)
deriving DecidableEq, Repr

/-- Apply one call to a drawing state, keeping only the state. -/
def applyCall (s : DrawingState) : Call → DrawingState
  | .commit op u i t => (s.addOperation op u i t).1
  | .undoCall u i t => (s.undoOwn u i t).1
  | .redoCall u i t => (s.redoOwn u i t).1

/-- Apply a sequence of calls left to right. -/
def applyCalls (s : DrawingState) (cs : List Call) : DrawingState :=
  cs.foldl applyCall s

/-- The sixteen uppercase hexadecimal digits. -/
def hexUpperChars : List Char :=
  ['0', '1', '2', '3', '4', '5', '6', '7', '8', '9', 'A', 'B', 'C', 'D', 'E', 'F']

/-- Sample log for claim C1: author `a` drew one stroke and already undid it,
so `a` has no currently-visible strokes. -/
def sampleC1 : DrawingState :=
  { roomId := "r", operations := [
      { id := 1, userId := "a", roomId := "r", type := "stroke", timestamp := 1 },
      { id := 2, userId := "a", roomId := "r", type := "undo", timestamp := 2,
        inverseOf := some 1 }] }

/-- Sample log for claim C2: author `a` drew strokes 1 and 2 and undid
stroke 2, so stroke 1 is visible (the undo stack for `a` is non-empty) while
`a`'s most recent stroke is hidden. -/
def sampleC2 : DrawingState :=
  { roomId := "r", operations := [
      { id := 1, userId := "a", roomId := "r", type := "stroke", timestamp := 1 },
      { id := 2, userId := "a", roomId := "r", type := "stroke", timestamp := 2 },
      { id := 3, userId := "a", roomId := "r", type := "undo", timestamp := 3,
        inverseOf := some 2 }] }

/-- Sample log for claim C3: author `a` drew stroke 1, undid it and already
redid it, so `a` has no currently-hidden strokes. -/
def sampleC3 : DrawingState :=
  { roomId := "r", operations := [
      { id := 1, userId := "a", roomId := "r", type := "stroke", timestamp := 1 },
      { id := 2, userId := "a", roomId := "r", type := "undo", timestamp := 2,
        inverseOf := some 1 },
      { id := 3, userId := "a", roomId := "r", type := "redo", timestamp := 3,
        redoOf := some 1 }] }

/-- Sample payload for claim C4: a client-crafted operation object carrying
its own `id`, `type` and `timestamp` fields. -/
def sampleC4Payload : Payload :=
  { id := some 999, type := some "undo", timestamp := some 5 }

/-- Sample log for claim C5: a `redo` whose target id resolves, in the log,
to an `undo` operation rather than to a stroke. -/
def sampleC5 : DrawingState :=
  { roomId := "r", operations := [
      { id := 5, userId := "a", roomId := "r", type := "undo", timestamp := 1 },
      { id := 6, userId := "a", roomId := "r", type := "redo", timestamp := 2,
        redoOf := some 5 }] }

/-- Sample log for the claim C5 witness: a stroke that was undone and then
redone, the redo target resolving to the stroke itself. -/
def sampleC5w : DrawingState :=
  { roomId := "r", operations := [
      { id := 1, userId := "a", roomId := "r", type := "stroke", timestamp := 1 },
      { id := 2, userId := "a", roomId := "r", type := "undo", timestamp := 2,
        inverseOf := some 1 },
      { id := 3, userId := "a", roomId := "r", type := "redo", timestamp := 3,
        redoOf := some 1 }] }

/-- Sample log for the claim C6 witness: one stroke by author `a` and one by
author `b`. -/
def sampleC6 : DrawingState :=
  { roomId := "r", operations := [
      { id := 1, userId := "a", roomId := "r", type := "stroke", timestamp := 1 },
      { id := 2, userId := "b", roomId := "r", type := "stroke", timestamp := 2 }] }

/-- Sample registry for the claim C9 witness: one room `"r"` whose only
participant is the socket `"s1"`. -/
def sampleC9 : RoomManager :=
  { rooms := [("r",
      { id := "r"
        users := [("s1", { id := "s1", username := "alice", color := ['#'] })]
        drawingState := { roomId := "r", operations := [
          { id := 1, userId := "s1", roomId := "r", type := "stroke", timestamp := 1 }] } })] }

/-- Inserting by timestamp is a permutation-respecting cons. -/
lemma insertByTimestamp_perm (a : Operation) (l : List Operation) :
    (insertByTimestamp a l).Perm (a :: l) := by
  induction l with
  | nil => simp [insertByTimestamp]
  | cons b l ih =>
    simp only [insertByTimestamp]
    split
    · exact ((ih.cons b).trans (List.Perm.swap a b l)).symm.symm
    · exact List.Perm.refl _

/-- The insertion-sort fold is a permutation of its input and accumulator. -/
lemma sortFold_perm (l acc : List Operation) :
    (l.foldl (fun acc a => insertByTimestamp a acc) acc).Perm (l ++ acc) := by
  induction l generalizing acc with
  | nil => simp
  | cons a l ih =>
    have h1 := ih (insertByTimestamp a acc)
    have h2 : (l ++ insertByTimestamp a acc).Perm (l ++ (a :: acc)) :=
      List.Perm.append_left l (insertByTimestamp_perm a acc)
    have h3 : (l ++ a :: acc).Perm (a :: (l ++ acc)) := List.perm_middle
    simpa using (h1.trans h2).trans h3

/-- Sorting by timestamp permutes the list. -/
lemma sortByTimestamp_perm (l : List Operation) : (sortByTimestamp l).Perm l := by
  simpa [sortByTimestamp] using sortFold_perm l []

/-- Membership is invariant under the timestamp sort. -/
lemma mem_sortByTimestamp {x : Operation} {l : List Operation} :
    x ∈ sortByTimestamp l ↔ x ∈ l :=
  (sortByTimestamp_perm l).mem_iff

/-- Members of an insertion are the inserted element or old members. -/
lemma mem_insertByTimestamp {x a : Operation} {l : List Operation} :
    x ∈ insertByTimestamp a l ↔ x = a ∨ x ∈ l := by
  have := (insertByTimestamp_perm a l).mem_iff (a := x)
  simpa using this

/-- Inserting into a timestamp-sorted list keeps it sorted. -/
lemma pairwise_insertByTimestamp (a : Operation) (l : List Operation)
    (h : l.Pairwise (fun x y => x.timestamp ≤ y.timestamp)) :
    (insertByTimestamp a l).Pairwise (fun x y => x.timestamp ≤ y.timestamp) := by
  induction l with
  | nil => simp [insertByTimestamp]
  | cons b l ih =>
    rcases List.pairwise_cons.mp h with ⟨hb, hl⟩
    simp only [insertByTimestamp]
    split
    · refine List.pairwise_cons.mpr ⟨?_, ih hl⟩
      intro x hx
      rcases mem_insertByTimestamp.mp hx with rfl | hx
      · assumption
      · exact hb x hx
    · refine List.pairwise_cons.mpr ⟨?_, h⟩
      intro x hx
      rcases List.mem_cons.mp hx with rfl | hx
      · omega
      · exact le_trans (by omega) (hb x hx)

/-- The result of the timestamp sort is sorted by ascending timestamp. -/
lemma sortByTimestamp_sorted (l : List Operation) :
    (sortByTimestamp l).Pairwise (fun x y => x.timestamp ≤ y.timestamp) := by
  suffices h : ∀ acc : List Operation,
      acc.Pairwise (fun x y => x.timestamp ≤ y.timestamp) →
      (l.foldl (fun acc a => insertByTimestamp a acc) acc).Pairwise
        (fun x y => x.timestamp ≤ y.timestamp) by
    exact h [] (by simp)
  induction l with
  | nil => intro acc hacc; simpa using hacc
  | cons a l ih =>
    intro acc hacc
    exact ih (insertByTimestamp a acc) (pairwise_insertByTimestamp a acc hacc)

/-- A failed search for a weaker predicate also fails for a stronger one. -/
lemma find?_none_of_imp {α : Type} {p q : α → Bool} (hpq : ∀ x, q x = true → p x = true) :
    ∀ l : List α, l.find? p = none → l.find? q = none := by
  intro l h
  rw [List.find?_eq_none] at h ⊢
  intro x hx hqx
  exact h x hx (hpq x hqx)

/-- If the first element matching a weak predicate also satisfies a stronger
predicate implying the weak one, it is also the first match of the stronger
predicate. -/
lemma find?_some_of_imp {α : Type} {p q : α → Bool} (hpq : ∀ x, q x = true → p x = true)
    {l : List α} {a : α} (h : l.find? p = some a) (ha : q a = true) :
    l.find? q = some a := by
  induction l with
  | nil => simp at h
  | cons b l ih =>
    cases hpb : p b with
    | true =>
      simp [List.find?_cons, hpb] at h
      subst h
      simp [List.find?_cons, ha]
    | false =>
      have hqb : q b = false := by
        cases hqb : q b with
        | true => exact absurd (hpq b hqb) (by simp [hpb])
        | false => rfl
      simp [List.find?_cons, hpb] at h
      simp [List.find?_cons, hqb, ih h]

/-- Entries produced by `jsMapSet` are the new binding or old entries. -/
lemma mem_jsMapSet {α β : Type} [BEq α] {m : List (α × β)} {k : α} {v : β}
    {p : α × β} (h : p ∈ jsMapSet m k v) : p = (k, v) ∨ p ∈ m := by
  unfold jsMapSet at h
  split at h
  · rcases List.mem_map.mp h with ⟨q, hq, hpq⟩
    by_cases hk : q.1 == k
    · left; simp [hk] at hpq; exact hpq.symm
    · right; simp [hk] at hpq; exact hpq ▸ hq
  · rcases List.mem_append.mp h with h' | h'
    · right; exact h'
    · left; simpa using h'

/-- `jsMapDelete` only removes entries. -/
lemma mem_jsMapDelete {α β : Type} [BEq α] {m : List (α × β)} {k : α}
    {p : α × β} (h : p ∈ jsMapDelete m k) : p ∈ m :=
  (List.mem_filter.mp h).1

/-- Overwriting an existing key in place leaves the new binding as the first
match for that key. -/
lemma find?_overwrite {α β : Type} [BEq α] [LawfulBEq α] (m : List (α × β)) (k : α) (v : β)
    (hany : m.any (fun p => p.1 == k) = true) :
    (m.map (fun p => if p.1 == k then (k, v) else p)).find? (fun p => p.1 == k) =
      some (k, v) := by
  induction m with
  | nil => simp at hany
  | cons p m ih =>
    cases hk : (p.1 == k) with
    | true =>
      rw [List.map_cons, if_pos hk, List.find?_cons]
      simp
    | false =>
      have hany' : m.any (fun p => p.1 == k) = true := by
        simpa [List.any_cons, hk] using hany
      rw [List.map_cons, if_neg (by simp [hk]), List.find?_cons, hk]
      exact ih hany'

/-- Appending a fresh binding makes it the first match for its key. -/
lemma find?_append_fresh {α β : Type} [BEq α] [LawfulBEq α] (m : List (α × β)) (k : α) (v : β)
    (hany : m.any (fun p => p.1 == k) = false) :
    (m ++ [(k, v)]).find? (fun p => p.1 == k) = some (k, v) := by
  induction m with
  | nil => simp [List.find?_cons]
  | cons p m ih =>
    have hk : (p.1 == k) = false := by
      by_contra hc
      simp only [List.any_cons, Bool.or_eq_false_iff] at hany
      exact absurd hany.1 (by simpa using hc)
    have hany' : m.any (fun p => p.1 == k) = false := by
      simpa [List.any_cons, hk] using hany
    rw [List.cons_append, List.find?_cons, hk]
    exact ih hany'

/-- Looking up a key just written returns the written value. -/
lemma jsMapGet_set_self {α β : Type} [BEq α] [LawfulBEq α] (m : List (α × β)) (k : α) (v : β) :
    jsMapGet (jsMapSet m k v) k = some v := by
  unfold jsMapGet jsMapSet
  split
  · rename_i hany
    rw [find?_overwrite m k v hany]
    rfl
  · rename_i hany
    rw [find?_append_fresh m k v (Bool.eq_false_iff.mpr hany)]
    rfl

/-- Looking up a key just deleted returns nothing. -/
lemma jsMapGet_delete_self {α β : Type} [BEq α] [LawfulBEq α] (m : List (α × β)) (k : α) :
    jsMapGet (jsMapDelete m k) k = none := by
  unfold jsMapGet jsMapDelete
  rw [Option.map_eq_none']
  rw [List.find?_eq_none]
  intro p hp
  have := (List.mem_filter.mp hp).2
  simpa using this

/-- Every entry of the active map built by the fold binds an operation of
the log under its own id. -/
lemma activeStep_entries (ops : List Operation) (m : List (Nat × Operation)) (op : Operation)
    (hm : ∀ p ∈ m, p.2.id = p.1 ∧ p.2 ∈ ops) (hop : op ∈ ops) :
    ∀ p ∈ activeStep ops m op, p.2.id = p.1 ∧ p.2 ∈ ops := by
  have h1 : ∀ p ∈ strokeStep m op, p.2.id = p.1 ∧ p.2 ∈ ops := by
    unfold strokeStep
    split
    · intro p hp
      rcases mem_jsMapSet hp with rfl | hp
      · exact ⟨rfl, hop⟩
      · exact hm p hp
    · exact hm
  have h2 : ∀ p ∈ undoStep (strokeStep m op) op, p.2.id = p.1 ∧ p.2 ∈ ops := by
    unfold undoStep
    split
    · cases op.inverseOf with
      | some t => exact fun p hp => h1 p (mem_jsMapDelete hp)
      | none => exact h1
    · exact h1
  unfold activeStep redoStep
  split
  · split
    · split
      · rename_i t hrd original hf
        intro p hp
        rcases mem_jsMapSet hp with rfl | hp
        · exact ⟨rfl, List.mem_of_find?_eq_some hf⟩
        · exact h2 p hp
      · exact h2
    · exact h2
  · exact h2

/-- Fold form of `activeStep_entries` over a sublist of the log. -/
lemma activeFold_entries (ops : List Operation) :
    ∀ (l : List Operation) (m : List (Nat × Operation)),
      (∀ p ∈ m, p.2.id = p.1 ∧ p.2 ∈ ops) → (∀ op ∈ l, op ∈ ops) →
      ∀ p ∈ l.foldl (activeStep ops) m, p.2.id = p.1 ∧ p.2 ∈ ops := by
  intro l
  induction l with
  | nil => intro m hm _ p hp; exact hm p hp
  | cons op l ih =>
    intro m hm hl p hp
    exact ih (activeStep ops m op)
      (activeStep_entries ops m op hm (hl op (List.mem_cons_self op l)))
      (fun o ho => hl o (List.mem_cons_of_mem _ ho)) p hp

/-- The fold step ignores a trailing appended operation of the log as long
as no `redoOf` of the folded operations points at its id. -/
lemma activeStep_append_irrelevant (ops : List Operation) (inv : Operation)
    (m : List (Nat × Operation)) (op : Operation)
    (h : ∀ t, op.redoOf = some t → t ≠ inv.id) :
    activeStep (ops ++ [inv]) m op = activeStep ops m op := by
  unfold activeStep redoStep
  split
  · split
    · rename_i t hrd
      have hne : (inv.id == t) = false := by
        have := h t hrd
        simp only [beq_eq_false_iff_ne, ne_eq]
        omega
      rw [List.find?_append]
      have hfi : List.find? (fun o => o.id == t) [inv] = none := by
        simp [List.find?_cons, hne]
      rw [hfi, Option.or_none]
    · rfl
  · rfl

/-- Fold form of `activeStep_append_irrelevant`. -/
lemma activeFold_append_irrelevant (ops : List Operation) (inv : Operation) :
    ∀ (l : List Operation) (m : List (Nat × Operation)),
      (∀ op ∈ l, ∀ t, op.redoOf = some t → t ≠ inv.id) →
      l.foldl (activeStep (ops ++ [inv])) m = l.foldl (activeStep ops) m := by
  intro l
  induction l with
  | nil => intro m _; rfl
  | cons op l ih =>
    intro m hl
    rw [List.foldl_cons, List.foldl_cons,
      activeStep_append_irrelevant ops inv m op (hl op (List.mem_cons_self op l))]
    exact ih _ (fun o ho => hl o (List.mem_cons_of_mem _ ho))

/-- When the operation's redo target, if it resolves in the log at all,
resolves to a stroke, the source loop body agrees with the spec loop body. -/
lemma activeStep_eq_specStep (ops : List Operation) (m : List (Nat × Operation)) (op : Operation)
    (h : op.type = "redo" → ∀ t, op.redoOf = some t → ∀ orig,
      ops.find? (fun o => o.id == t) = some orig → orig.type = "stroke") :
    activeStep ops m op = specStep ops m op := by
  by_cases hs : op.type = "stroke"
  · simp [activeStep, strokeStep, undoStep, redoStep, specStep, hs]
  · by_cases hu : op.type = "undo"
    · simp [activeStep, strokeStep, undoStep, redoStep, specStep, hs, hu]
    · by_cases hr : op.type = "redo"
      · have e1 : strokeStep m op = m := by unfold strokeStep; rw [if_neg hs]
        have e2 : undoStep m op = m := by unfold undoStep; rw [if_neg hu]
        unfold activeStep
        rw [e1, e2]
        unfold redoStep specStep
        rw [if_pos hr, if_neg hs, if_neg hu, if_pos hr]
        split
        · rename_i t hrd
          cases hf : ops.find? (fun o => o.id == t) with
          | none =>
            rw [find?_none_of_imp (p := fun o : Operation => o.id == t)
              (q := fun o : Operation => o.type == "stroke" && o.id == t)
              (fun x hx => (Bool.and_eq_true _ _ |>.mp hx).2) ops hf]
          | some orig =>
            have hstroke : orig.type = "stroke" := h hr t hrd orig hf
            have hidt : (orig.id == t) = true := by simpa using List.find?_some hf
            have hq : (orig.type == "stroke" && orig.id == t) = true := by
              simp [hstroke, hidt]
            rw [find?_some_of_imp (p := fun o : Operation => o.id == t)
              (q := fun o : Operation => o.type == "stroke" && o.id == t)
              (fun x hx => (Bool.and_eq_true _ _ |>.mp hx).2) hf hq]
            have : orig.id = t := by simpa using hidt
            show jsMapSet m orig.id orig = jsMapSet m t orig
            rw [this]
        · rfl
      · simp [activeStep, strokeStep, undoStep, redoStep, specStep, hs, hu, hr]

/-- Fold form of `activeStep_eq_specStep`. -/
lemma activeFold_eq_specFold (ops : List Operation) :
    ∀ (l : List Operation) (m : List (Nat × Operation)),
      (∀ op ∈ l, op.type = "redo" → ∀ t, op.redoOf = some t → ∀ orig,
        ops.find? (fun o => o.id == t) = some orig → orig.type = "stroke") →
      l.foldl (activeStep ops) m = l.foldl (specStep ops) m := by
  intro l
  induction l with
  | nil => intro m _; rfl
  | cons op l ih =>
    intro m hl
    rw [List.foldl_cons, List.foldl_cons,
      activeStep_eq_specStep ops m op (hl op (List.mem_cons_self op l))]
    exact ih _ (fun o ho => hl o (List.mem_cons_of_mem _ ho))

/-- A non-stroke operation leaves the stroke step inert. -/
lemma strokeStep_of_not_stroke (m : List (Nat × Operation)) (op : Operation)
    (h : ¬ op.type = "stroke") : strokeStep m op = m := by
  unfold strokeStep; rw [if_neg h]

/-- An undo operation with a target deletes exactly that key. -/
lemma undoStep_of_undo (m : List (Nat × Operation)) (op : Operation) (t : Nat)
    (h : op.type = "undo") (ht : op.inverseOf = some t) :
    undoStep m op = jsMapDelete m t := by
  unfold undoStep; rw [if_pos h, ht]

/-- A non-redo operation leaves the redo step inert. -/
lemma redoStep_of_not_redo (ops : List Operation) (m : List (Nat × Operation))
    (op : Operation) (h : ¬ op.type = "redo") : redoStep ops m op = m := by
  unfold redoStep; rw [if_neg h]

/-- The whole loop body of an undo operation deletes exactly its target. -/
lemma activeStep_undo_op (ops : List Operation) (m : List (Nat × Operation))
    (op : Operation) (t : Nat) (h : op.type = "undo") (ht : op.inverseOf = some t) :
    activeStep ops m op = jsMapDelete m t := by
  unfold activeStep
  rw [strokeStep_of_not_stroke m op (by simp [h]), undoStep_of_undo _ op t h ht,
    redoStep_of_not_redo ops _ op (by simp [h])]

/-- Unpacking of the decidable `redoTargetsStrokes` check. -/
lemma redoTargetsStrokes_spec (ops : List Operation) (h : redoTargetsStrokes ops = true) :
    ∀ op ∈ ops, op.type = "redo" → ∀ t, op.redoOf = some t → ∀ orig,
      ops.find? (fun o => o.id == t) = some orig → orig.type = "stroke" := by
  intro op hop hr t hrd orig hf
  have hp := List.all_eq_true.mp h op hop
  rw [hr, hrd] at hp
  simpa [hf] using hp

/-- The masked hash is below `2^24`. -/
lemma maskedHash_lt (codes : List Nat) : maskedHash codes < 16777216 :=
  Nat.lt_succ_of_le Nat.and_le_right

/-- Hex digits of values below sixteen are uppercase hexadecimal characters. -/
lemma hexDigit_mem : ∀ n < 16, hexDigit n ∈ hexUpperChars := by decide

/-- `toHex` emits only uppercase hexadecimal characters. -/
lemma toHex_mem (n : Nat) : ∀ c ∈ toHex n, c ∈ hexUpperChars := by
  induction n using Nat.strong_induction_on with
  | _ n ih =>
    intro c hc
    rw [toHex] at hc
    split at hc
    · rename_i hlt
      simp only [List.mem_singleton] at hc
      subst hc
      exact hexDigit_mem n hlt
    · rename_i hge
      rcases List.mem_append.mp hc with h | h
      · exact ih (n / 16) (Nat.div_lt_self (by omega) (by omega)) c h
      · simp only [List.mem_singleton] at h
        subst h
        exact hexDigit_mem (n % 16) (Nat.mod_lt _ (by omega))

/-- `toHex` uses at most `k` digits below `16 ^ k`. -/
lemma toHex_length_le : ∀ (k n : Nat), 0 < k → n < 16 ^ k → (toHex n).length ≤ k := by
  intro k
  induction k with
  | zero => intro n h _; omega
  | succ k ih =>
    intro n _ hn
    rw [toHex]
    split
    · simp
    · rename_i hge
      have hk : 0 < k := by
        by_contra hk0
        have hkz : k = 0 := by omega
        subst hkz
        have h16 : (16 : Nat) ^ (0 + 1) = 16 := by norm_num
        omega
      have hdiv : n / 16 < 16 ^ k := by
        have hlt : n < 16 * 16 ^ k := by
          have : (16 : Nat) ^ (k + 1) = 16 * 16 ^ k := by ring
          omega
        exact Nat.div_lt_of_lt_mul hlt
      have hlen := ih (n / 16) hk hdiv
      simp only [List.length_append, List.length_singleton]
      omega

/-- `toHex` is never empty. -/
lemma toHex_length_pos (n : Nat) : 0 < (toHex n).length := by
  rw [toHex]
  split
  · simp
  · simp

/-- C1: refuted as stated. In `sampleC1` author `a` has no currently-visible
strokes (no active operation is authored by `a`), yet `undoOwn("a")` does not
return none: it returns an operation and appends it, growing the log from two
to three operations — so the server `undo` handler would also broadcast. -/
theorem undoOwn_not_noop_when_all_hidden :
    (∀ o ∈ sampleC1.getActiveOperations, ¬ o.userId = "a") ∧
    (sampleC1.undoOwn "a" 3 5).2.isSome = true ∧
    (sampleC1.undoOwn "a" 3 5).1.operations.length = sampleC1.operations.length + 1 := by
  decide

/-- C2: refuted as stated. In `sampleC2` author `a` has a visible stroke
(stroke 1), i.e. at least one undoable stroke, but `undoOwn("a")` targets the
already-hidden stroke 2, so undo followed by redo yields the active id set
`{1, 2}` instead of the prior `{1}`. -/
theorem undo_redo_roundtrip_fails :
    (∃ o ∈ sampleC2.getActiveOperations, o.userId = "a" ∧ o.type = "stroke") ∧
    sampleC2.getActiveOperations.map (fun o => o.id) = [1] ∧
    (((sampleC2.undoOwn "a" 4 10).1.redoOwn "a" 5 11).1.getActiveOperations.map
      (fun o => o.id)) = [1, 2] := by
  decide

/-- C3: refuted as stated. In `sampleC3` every stroke authored by `a` is
currently visible (no currently-hidden strokes), yet `redoOwn("a")` does not
return none: it finds the old undo operation and appends a fourth operation,
a redo that does not correspond to any currently-effective undo. -/
theorem redoOwn_not_noop_when_none_hidden :
    (∀ st ∈ sampleC3.operations, st.type = "stroke" → st.userId = "a" →
      ∃ o ∈ sampleC3.getActiveOperations, o.id = st.id) ∧
    (sampleC3.redoOwn "a" 4 10).2.isSome = true ∧
    (sampleC3.redoOwn "a" 4 10).1.operations.length = sampleC3.operations.length + 1 := by
  decide

/-- C4: refuted as stated. `addOperation` spreads the client payload after
the server-assigned fields, so a payload carrying `id`, `type` and
`timestamp` overrides the coordinator's values: the committed operation has
the client's id 999 (not the assigned 1), the client's timestamp 5 (not the
assigned 100), and kind `undo` instead of `stroke`. -/
theorem addOperation_client_fields_override :
    (DrawingState.addOperation { roomId := "r" } sampleC4Payload "u" 1 100).2.id = 999 ∧
    (DrawingState.addOperation { roomId := "r" } sampleC4Payload "u" 1 100).2.type = "undo" ∧
    (DrawingState.addOperation { roomId := "r" } sampleC4Payload "u" 1 100).2.timestamp = 5 ∧
    ¬ (DrawingState.addOperation { roomId := "r" } sampleC4Payload "u" 1 100).2.id = 1 ∧
    ¬ (DrawingState.addOperation { roomId := "r" } sampleC4Payload "u" 1 100).2.timestamp = 100 ∧
    ¬ (DrawingState.addOperation { roomId := "r" } sampleC4Payload "u" 1 100).2.type = "stroke" := by
  decide

/-- C5 counterexample: on `sampleC5`, whose redo target resolves to an undo
operation, the source reconstruction re-adds that undo operation (active id
set `{5}`) while the spec reconstruction, which restricts the lookup to
strokes, yields the empty set — so the claimed equality fails for this log. -/
theorem getActiveOperations_differs_from_spec_fold :
    sampleC5.getActiveOperations.map (fun o => o.id) = [5] ∧
    specActiveOps sampleC5 = [] ∧
    ¬ sampleC5.getActiveOperations = specActiveOps sampleC5 := by
  decide

/-- C8 counterexample: submitting an operation for the never-joined room
`"r"` on an empty registry is not rejected and does not leave the registry
unchanged: it creates the room and appends the operation to its fresh log. -/
theorem unknown_room_not_rejected :
    ¬ (RoomManager.addOperation { rooms := [] } "r" {} "u" 1 5).1 = ({ rooms := [] } : RoomManager) ∧
    ((RoomManager.addOperation { rooms := [] } "r" {} "u" 1 5).1.rooms.map (fun p => p.1)) = ["r"] ∧
    ((jsMapGet (RoomManager.addOperation { rooms := [] } "r" {} "u" 1 5).1.rooms "r").map
      (fun room => room.drawingState.operations.length)) = some 1 := by
  decide

/-- Each single call appends at most one operation and removes nothing. -/
lemma applyCall_extends (s : DrawingState) (c : Call) :
    ∃ u : List Operation, (applyCall s c).operations = s.operations ++ u ∧ u.length ≤ 1 := by
  cases c with
  | commit op u i t => exact ⟨_, rfl, by simp⟩
  | undoCall u i t =>
    rcases hfind : s.operations.reverse.find? (fun op => op.type == "stroke" && op.userId == u)
      with _ | target
    · refine ⟨[], ?_, by simp⟩
      show (s.undoOwn u i t).1.operations = s.operations ++ []
      unfold DrawingState.undoOwn
      rw [hfind]
      exact (List.append_nil s.operations).symm
    · refine ⟨[{ id := i, userId := u, roomId := s.roomId, type := "undo", timestamp := t, inverseOf := some target.id }], ?_, by simp⟩
      show (s.undoOwn u i t).1.operations = _
      unfold DrawingState.undoOwn
      rw [hfind]
  | redoCall u i t =>
    rcases hfind : s.operations.reverse.find? (fun op => op.type == "undo" && op.userId == u)
      with _ | lastUndo
    · refine ⟨[], ?_, by simp⟩
      show (s.redoOwn u i t).1.operations = s.operations ++ []
      unfold DrawingState.redoOwn
      rw [hfind]
      exact (List.append_nil s.operations).symm
    · refine ⟨[{ id := i, userId := u, roomId := s.roomId, type := "redo", timestamp := t, redoOf := lastUndo.inverseOf }], ?_, by simp⟩
      show (s.redoOwn u i t).1.operations = _
      unfold DrawingState.redoOwn
      rw [hfind]

/-- C7: the log is append-only. After any sequence of `addOperation`,
`undoOwn` and `redoOwn` calls, the new operations list is the old list with
a suffix appended (every previously observed prefix is unchanged, nothing is
removed or mutated), and each call contributes at most one operation. -/
theorem log_append_only (s : DrawingState) (cs : List Call) :
    ∃ t : List Operation, (applyCalls s cs).operations = s.operations ++ t ∧
      t.length ≤ cs.length := by
  induction cs generalizing s with
  | nil => exact ⟨[], by simp [applyCalls], by simp⟩
  | cons c cs ih =>
    rcases applyCall_extends s c with ⟨u, hu, hul⟩
    rcases ih (applyCall s c) with ⟨t, ht, htl⟩
    refine ⟨u ++ t, ?_, ?_⟩
    · show (applyCalls (applyCall s c) cs).operations = _
      rw [ht, hu, List.append_assoc]
    · simp only [List.length_append, List.length_cons]
      omega

/-- C5 (amended): for every log in which each `redo` target that resolves in
the log resolves to a stroke operation (`redoTargetsStrokes`, true of every
log the server builds itself), `getActiveOperations` equals the spec
reconstruction fold — `stroke` adds the operation under its id, `undo`
removes its target, `redo` re-adds the original stroke with its original
timestamp — and its output is sorted by ascending timestamp. Purity and
determinism are inherent: it is a function of the log and returns the same
result on re-runs without modifying the log. Without the side condition the
two folds differ (see the counterexample), because the source re-adds the
first log operation with the target id whatever its type. -/
theorem getActiveOperations_spec_agreement (s : DrawingState)
    (h : redoTargetsStrokes s.operations = true) :
    s.getActiveOperations = specActiveOps s ∧
    s.getActiveOperations.Pairwise (fun a b => a.timestamp ≤ b.timestamp) := by
  constructor
  · unfold DrawingState.getActiveOperations specActiveOps
    rw [activeFold_eq_specFold s.operations s.operations []
      (redoTargetsStrokes_spec s.operations h)]
  · exact sortByTimestamp_sorted _

/-- Witness for the C5 agreement theorem at the concrete log `sampleC5w`. -/
theorem getActiveOperations_spec_agreement_witness :
    redoTargetsStrokes sampleC5w.operations = true ∧
    (sampleC5w.getActiveOperations = specActiveOps sampleC5w ∧
     sampleC5w.getActiveOperations.Pairwise (fun a b => a.timestamp ≤ b.timestamp)) :=
  ⟨by decide, getActiveOperations_spec_agreement sampleC5w (by decide)⟩

/-- C10: `assignColor` is total and well-formed on every socket id: the
result is `'#'` followed by exactly six uppercase hexadecimal digits (also
when the 32-bit hash is negative, since the final mask yields a value below
`2^24`), and it is deterministic — equal socket ids give equal colors. -/
theorem assignColor_wellformed (socketId : String) :
    (assignColor socketId).length = 7 ∧
    (assignColor socketId).head? = some '#' ∧
    (∀ c ∈ (assignColor socketId).tail, c ∈ hexUpperChars) ∧
    (∀ other : String, socketId = other → assignColor socketId = assignColor other) := by
  have hlt : maskedHash (socketId.data.map Char.toNat) < 16 ^ 6 := by
    have := maskedHash_lt (socketId.data.map Char.toNat)
    have h16 : (16 : Nat) ^ 6 = 16777216 := by norm_num
    omega
  have hle : (toHex (maskedHash (socketId.data.map Char.toNat))).length ≤ 6 :=
    toHex_length_le 6 _ (by omega) hlt
  have hpos := toHex_length_pos (maskedHash (socketId.data.map Char.toNat))
  refine ⟨?_, ?_, ?_, ?_⟩
  · unfold assignColor
    simp only [List.length_cons, List.length_append, List.length_replicate]
    omega
  · unfold assignColor
    rfl
  · unfold assignColor
    intro c hc
    simp only [List.tail_cons] at hc
    rcases List.mem_append.mp hc with h | h
    · have : c = '0' := List.eq_of_mem_replicate h
      subst this
      decide
    · exact toHex_mem _ c h
  · intro other h
    rw [h]

/-- Witness for the C10 theorem at the concrete socket id `"abc"`. -/
theorem assignColor_wellformed_witness :
    (assignColor "abc").length = 7 ∧
    (assignColor "abc").head? = some '#' ∧
    (∀ c ∈ (assignColor "abc").tail, c ∈ hexUpperChars) ∧
    assignColor "abc" = assignColor "abc" :=
  ⟨(assignColor_wellformed "abc").1, (assignColor_wellformed "abc").2.1,
   (assignColor_wellformed "abc").2.2.1, (assignColor_wellformed "abc").2.2.2 "abc" rfl⟩

/-- C6: per-user undo isolation. If all operation ids in the log are
distinct (the uuid contract) and no operation of the log carries the freshly
drawn uuid as its redo target (uuid freshness), then an `undoOwn` call by
`A` appends only an `undo` targeting a stroke of the log that is authored by
`A` itself, and for any other user `B` the membership of `B`-authored
operations in the active set is unchanged. -/
theorem undoOwn_isolates_other_users (s : DrawingState) (A B : String) (newId : Nat) (now : Int)
    (hAB : ¬ A = B)
    (hids : (s.operations.map (fun o => o.id)).Nodup)
    (hredo : ∀ op ∈ s.operations, ¬ op.redoOf = some newId) :
    (∀ o, (s.undoOwn A newId now).2 = some o →
      o.type = "undo" ∧ ∃ st ∈ s.operations, st.type = "stroke" ∧ st.userId = A ∧
        o.inverseOf = some st.id) ∧
    (∀ i : Nat,
      (∃ o ∈ (s.undoOwn A newId now).1.getActiveOperations, o.userId = B ∧ o.id = i) ↔
      (∃ o ∈ s.getActiveOperations, o.userId = B ∧ o.id = i)) := by
  rcases hfind : s.operations.reverse.find? (fun op => op.type == "stroke" && op.userId == A)
    with _ | target
  · have hres : s.undoOwn A newId now = (s, none) := by
      unfold DrawingState.undoOwn; rw [hfind]
    rw [hres]
    exact ⟨fun o ho => by simp at ho, fun i => Iff.rfl⟩
  · have hmem : target ∈ s.operations := List.mem_reverse.mp (List.mem_of_find?_eq_some hfind)
    have hpred := List.find?_some hfind
    have htype : target.type = "stroke" := by
      have h := (Bool.and_eq_true _ _).mp hpred
      simpa using h.1
    have huser : target.userId = A := by
      have h := (Bool.and_eq_true _ _).mp hpred
      simpa using h.2
    have h1 : (s.undoOwn A newId now).1 = { s with operations := s.operations ++ [{ id := newId, userId := A, roomId := s.roomId, type := "undo", timestamp := now, inverseOf := some target.id }] } := by
      unfold DrawingState.undoOwn; rw [hfind]
    have h2 : (s.undoOwn A newId now).2 = some { id := newId, userId := A, roomId := s.roomId, type := "undo", timestamp := now, inverseOf := some target.id } := by
      unfold DrawingState.undoOwn; rw [hfind]
    have hr' : ∀ op ∈ s.operations, ∀ t, op.redoOf = some t → ¬ t = newId :=
      fun op hop t ht heq => hredo op hop (heq ▸ ht)
    have hfold : (s.undoOwn A newId now).1.getActiveOperations =
        sortByTimestamp ((jsMapDelete (s.operations.foldl (activeStep s.operations) [])
          target.id).map (fun p => p.2)) := by
      rw [h1]
      unfold DrawingState.getActiveOperations
      rw [List.foldl_append]
      rw [activeFold_append_irrelevant s.operations _ s.operations [] hr']
      rw [List.foldl_cons, List.foldl_nil]
      rw [activeStep_undo_op _ _ _ target.id rfl rfl]
    constructor
    · intro o ho
      rw [h2] at ho
      injection ho with ho
      subst ho
      exact ⟨rfl, target, hmem, htype, huser, rfl⟩
    · intro i
      rw [hfold]
      have hM : s.getActiveOperations =
          sortByTimestamp ((s.operations.foldl (activeStep s.operations) []).map
            (fun p => p.2)) := rfl
      rw [hM]
      constructor
      · rintro ⟨o, ho, hB, hi⟩
        rcases List.mem_map.mp (mem_sortByTimestamp.mp ho) with ⟨p, hp, rfl⟩
        exact ⟨p.2, mem_sortByTimestamp.mpr (List.mem_map.mpr ⟨p, mem_jsMapDelete hp, rfl⟩),
          hB, hi⟩
      · rintro ⟨o, ho, hB, hi⟩
        rcases List.mem_map.mp (mem_sortByTimestamp.mp ho) with ⟨p, hp, rfl⟩
        have hent := activeFold_entries s.operations s.operations [] (by simp)
          (fun _ h => h) p hp
        have hkeep : (!(p.1 == target.id)) = true := by
          by_contra hc
          have hpk : p.1 = target.id := by
            simp only [Bool.not_eq_true, Bool.not_eq_false] at hc
            simpa using hc
          have hid : p.2.id = target.id := hent.1.trans hpk
          have hpt : p.2 = target := List.inj_on_of_nodup_map hids hent.2 hmem hid
          rw [hpt, huser] at hB
          exact hAB hB
        refine ⟨p.2, mem_sortByTimestamp.mpr (List.mem_map.mpr ⟨p, ?_, rfl⟩), hB, hi⟩
        exact List.mem_filter.mpr ⟨hp, hkeep⟩

/-- Witness for the C6 isolation theorem on `sampleC6`. -/
theorem undoOwn_isolates_other_users_witness :
    (¬ "a" = "b") ∧
    (sampleC6.operations.map (fun o => o.id)).Nodup ∧
    (∀ op ∈ sampleC6.operations, ¬ op.redoOf = some 3) ∧
    ((∀ o, (sampleC6.undoOwn "a" 3 5).2 = some o →
      o.type = "undo" ∧ ∃ st ∈ sampleC6.operations, st.type = "stroke" ∧ st.userId = "a" ∧
        o.inverseOf = some st.id) ∧
    (∀ i : Nat,
      (∃ o ∈ (sampleC6.undoOwn "a" 3 5).1.getActiveOperations, o.userId = "b" ∧ o.id = i) ↔
      (∃ o ∈ sampleC6.getActiveOperations, o.userId = "b" ∧ o.id = i))) :=
  ⟨by decide, by decide, by decide,
    undoOwn_isolates_other_users sampleC6 "a" "b" 3 5 (by decide) (by decide) (by decide)⟩

/-- C8 (amended): an operation naming an unknown room identifier is not
rejected — `getRoom` creates a fresh empty room on demand. `addOperation`
then appends the committed operation to the fresh room's log and returns it,
while `undoOwn` and `redoOwn` on the freshly created room return none and
append nothing, leaving the new room registered with an empty log. -/
theorem unknown_room_operations_create_room (m : RoomManager) (r : String) (p : Payload)
    (u : String) (i : Nat) (t : Int) (h : jsMapGet m.rooms r = none) :
    ((jsMapGet (m.addOperation r p u i t).1.rooms r).map
      (fun room => room.drawingState.operations)) = some [(m.addOperation r p u i t).2] ∧
    ((m.undoOwn r u i t).2 = none ∧
      ((jsMapGet (m.undoOwn r u i t).1.rooms r).map
        (fun room => room.drawingState.operations)) = some []) ∧
    ((m.redoOwn r u i t).2 = none ∧
      ((jsMapGet (m.redoOwn r u i t).1.rooms r).map
        (fun room => room.drawingState.operations)) = some []) := by
  have hgr : m.getRoom r = ({ rooms := jsMapSet m.rooms r { id := r, users := [], drawingState := { roomId := r, operations := [] } } }, { id := r, users := [], drawingState := { roomId := r, operations := [] } }) := by
    unfold RoomManager.getRoom; rw [h]
  refine ⟨?_, ⟨?_, ?_⟩, ⟨?_, ?_⟩⟩
  · unfold RoomManager.addOperation
    rw [hgr, jsMapGet_set_self]
    rfl
  · unfold RoomManager.undoOwn
    rw [hgr]
    rfl
  · unfold RoomManager.undoOwn
    rw [hgr, jsMapGet_set_self]
    rfl
  · unfold RoomManager.redoOwn
    rw [hgr]
    rfl
  · unfold RoomManager.redoOwn
    rw [hgr, jsMapGet_set_self]
    rfl

/-- Witness for the C8 amended theorem on the empty registry. -/
theorem unknown_room_operations_create_room_witness :
    jsMapGet ({ rooms := [] } : RoomManager).rooms "r" = none ∧
    (((jsMapGet (RoomManager.addOperation { rooms := [] } "r" {} "u" 1 5).1.rooms "r").map
      (fun room => room.drawingState.operations)) =
        some [(RoomManager.addOperation { rooms := [] } "r" {} "u" 1 5).2] ∧
    ((RoomManager.undoOwn { rooms := [] } "r" "u" 1 5).2 = none ∧
      ((jsMapGet (RoomManager.undoOwn { rooms := [] } "r" "u" 1 5).1.rooms "r").map
        (fun room => room.drawingState.operations)) = some []) ∧
    ((RoomManager.redoOwn { rooms := [] } "r" "u" 1 5).2 = none ∧
      ((jsMapGet (RoomManager.redoOwn { rooms := [] } "r" "u" 1 5).1.rooms "r").map
        (fun room => room.drawingState.operations)) = some [])) := by
  refine ⟨by decide, ?_⟩
  have hall := unknown_room_operations_create_room { rooms := [] } "r" {} "u" 1 5 (by decide)
  exact ⟨hall.1, hall.2.1, hall.2.2⟩

/-- C9: when the last participant of a room leaves, the room is deleted from
the registry, and a subsequent join with the same identifier observes a
freshly created room: empty log, empty active history, and only the new
participant in its user map. -/
theorem empty_room_discarded_and_recreated (m : RoomManager) (r sid : String) (room : Room)
    (hroom : jsMapGet m.rooms r = some room)
    (hlast : ∀ p ∈ room.users, p.1 = sid) :
    jsMapGet (m.removeUser r sid).rooms r = none ∧
    (∀ sid2 name : String,
      ((jsMapGet ((m.removeUser r sid).addUser r sid2 name).1.rooms r).map
        (fun room2 => room2.drawingState.operations)) = some [] ∧
      ((jsMapGet ((m.removeUser r sid).addUser r sid2 name).1.rooms r).map
        (fun room2 => room2.drawingState.getActiveOperations)) = some [] ∧
      ((jsMapGet ((m.removeUser r sid).addUser r sid2 name).1.rooms r).map
        (fun room2 => room2.users)) =
          some [(sid2, ((m.removeUser r sid).addUser r sid2 name).2)]) := by
  have hgr : m.getRoom r = (m, room) := by
    unfold RoomManager.getRoom; rw [hroom]
  have hdel : jsMapDelete room.users sid = [] := by
    apply List.filter_eq_nil_iff.mpr
    intro p hp
    simp [hlast p hp]
  have hrm : m.removeUser r sid = { rooms := jsMapDelete m.rooms r } := by
    unfold RoomManager.removeUser
    rw [hgr]
    show (if (jsMapDelete room.users sid).isEmpty = true then ({ rooms := jsMapDelete m.rooms r } : RoomManager) else { rooms := jsMapSet m.rooms r { id := room.id, users := jsMapDelete room.users sid, drawingState := room.drawingState } }) = { rooms := jsMapDelete m.rooms r }
    rw [hdel]
    rfl
  have hnone : jsMapGet (m.removeUser r sid).rooms r = none := by
    rw [hrm]
    exact jsMapGet_delete_self m.rooms r
  refine ⟨hnone, ?_⟩
  intro sid2 name
  have hgr2 : (m.removeUser r sid).getRoom r = ({ rooms := jsMapSet (m.removeUser r sid).rooms r { id := r, users := [], drawingState := { roomId := r, operations := [] } } }, { id := r, users := [], drawingState := { roomId := r, operations := [] } }) := by
    unfold RoomManager.getRoom; rw [hnone]
  refine ⟨?_, ?_, ?_⟩ <;>
  · unfold RoomManager.addUser
    rw [hgr2, jsMapGet_set_self]
    rfl

/-- Witness for the C9 theorem on `sampleC9`, whose room `"r"` has the
single participant `"s1"`. -/
theorem empty_room_discarded_and_recreated_witness :
    (jsMapGet sampleC9.rooms "r" = some { id := "r", users := [("s1", { id := "s1", username := "alice", color := ['#'] })], drawingState := { roomId := "r", operations := [{ id := 1, userId := "s1", roomId := "r", type := "stroke", timestamp := 1 }] } } ∧
      (∀ p ∈ [("s1", ({ id := "s1", username := "alice", color := ['#'] } : User))], p.1 = "s1")) ∧
    (jsMapGet (sampleC9.removeUser "r" "s1").rooms "r" = none ∧
    (∀ sid2 name : String,
      ((jsMapGet ((sampleC9.removeUser "r" "s1").addUser "r" sid2 name).1.rooms "r").map
        (fun room2 => room2.drawingState.operations)) = some [] ∧
      ((jsMapGet ((sampleC9.removeUser "r" "s1").addUser "r" sid2 name).1.rooms "r").map
        (fun room2 => room2.drawingState.getActiveOperations)) = some [] ∧
      ((jsMapGet ((sampleC9.removeUser "r" "s1").addUser "r" sid2 name).1.rooms "r").map
        (fun room2 => room2.users)) =
          some [(sid2, ((sampleC9.removeUser "r" "s1").addUser "r" sid2 name).2)])) :=
  ⟨⟨by decide, by decide⟩,
    empty_room_discarded_and_recreated sampleC9 "r" "s1" { id := "r", users := [("s1", { id := "s1", username := "alice", color := ['#'] })], drawingState := { roomId := "r", operations := [{ id := 1, userId := "s1", roomId := "r", type := "stroke", timestamp := 1 }] } } (by decide) (by decide)⟩
